import Mathlib

/-!
Verification of `src/olpc/datastore/xapianindex.py` (sugar-datastore).

This file gives a shallow embedding of the `IndexManager` class and its
helpers.  The external search engine (`secore`/`xapian`) is modelled at its
interface boundary: the index held by a connection is a list of documents
keyed by their engine identity (`Doc.id`); `add`/`replace`/`delete` are the
obvious list operations; `flush` commits the write connection's state into
the read connection's snapshot.  Machine-level details (threads, the actual
on-disk index) are replaced by explicit state passing: every method of
`IndexManager` becomes a pure function from an `IMState` to an `IMState`
(or an `Except` when the Python code can raise).
-/

namespace XapianIndex

/-- Indexer operation constants from the source (`CREATE = 1`, `UPDATE = 2`,
`DELETE = 3`).  They are plain Python ints, so we keep them as `Nat`; a queue
item can in principle carry any other integer, which the worker logs as an
unexpected operation. -/
def CREATE : Nat := 1

/-- Constant `UPDATE = 2` in the source. -/
def UPDATE : Nat := 2

/-- Constant `DELETE = 3` in the source. -/
def DELETE : Nat := 3

/-- Tag-edit mode constant `ADD = 1` from the source. -/
def ADD : Nat := 1

/-- Tag-edit mode constant `REMOVE = 2` from the source. -/
def REMOVE : Nat := 2

/-- An engine document: the engine identity (`doc.id` in the source), the
named fields (`doc.fields`, a list of key/value pairs built via
`secore.Field`), and the opaque data blob's optional `tags` entry
(`doc.data` holds a dict; the tagging code only ever touches its `tags`
key, so we model exactly that entry). -/
structure Doc where
  id : String
  fields : List (String × String)
  dataTags : Option (List String)
deriving DecidableEq, Repr

/-- A pending work item as put on the queue by `enque`:
`(uid, vid, doc, operation, filestuff)`.  `filestuff` is the optional
`(filename, mimetype)` pair; `doc` is `none` for the DELETE path, which
enqueues `(uid, None, None, DELETE)`. -/
structure QueueItem where
  uid : String
  vid : Option String
  doc : Option Doc
  operation : Nat
  filestuff : Option (String × String)
deriving DecidableEq, Repr

/-- State of the two connections plus the work queue.  `writeIndex` is the
write connection's (uncommitted) view, `readIndex` the read connection's
snapshot.  A queue entry is a batch of items: `enque` puts a singleton
batch, `enqueSequence` puts a longer one (the worker's
`isinstance(data[0], (list, tuple))` normalisation is pre-applied by this
representation). -/
structure IMState where
  writeIndex : List Doc
  readIndex : List Doc
  queue : List (List QueueItem)
deriving DecidableEq, Repr

/-- Engine `write_index.add(doc)`: store a new document. -/
def engineAdd (e : List Doc) (d : Doc) : List Doc :=
  e ++ [d]

/-- Engine `write_index.replace(doc)` / `replace_document(doc)`: replace the
document having the same engine identity. -/
def engineReplace (e : List Doc) (d : Doc) : List Doc :=
  e.filter (fun x => x.id ≠ d.id) ++ [d]

/-- Engine `write_index.delete(uid)`: drop the document with that identity. -/
def engineDelete (e : List Doc) (uid : String) : List Doc :=
  e.filter (fun x => x.id ≠ uid)

/-- Engine `read_index.get_document(uid)`: point lookup by engine identity. -/
def engineGet (e : List Doc) (uid : String) : Option Doc :=
  e.find? (fun x => x.id = uid)

/-- Method `IndexManager.flush`: commit the write connection and reopen the read
connection onto the committed state (`write_index.flush();
read_index.reopen()` under the write lock). -/
def flush (st : IMState) : IMState :=
  { st with readIndex := st.writeIndex }

/-- Method `IndexManager.enque(uid, vid, doc, operation, filestuff)` — the
sync/async policy.  CREATE/UPDATE: apply the metadata write under the lock
(`add` for CREATE, `replace` for UPDATE), `flush`, reclassify the operation
to UPDATE, then return unless `filestuff` was supplied, in which case the
item is queued.  DELETE: delete under the lock, `flush`, return.  Any other
operation value falls through to the queue unchanged, as in the source. -/
def enque (st : IMState) (uid : String) (vid : Option String)
    (doc : Option Doc) (operation : Nat)
    (filestuff : Option (String × String)) : IMState :=
  if operation = CREATE ∨ operation = UPDATE then
    let w := match doc with
      | some d => if operation = CREATE then engineAdd st.writeIndex d
                  else engineReplace st.writeIndex d
      | none => st.writeIndex
    let st1 := flush { st with writeIndex := w }
    match filestuff with
    | none => st1
    | some fs =>
        { st1 with queue := st1.queue ++ [[⟨uid, vid, doc, UPDATE, some fs⟩]] }
  else if operation = DELETE then
    flush { st with writeIndex := engineDelete st.writeIndex uid }
  else
    { st with queue := st.queue ++ [[⟨uid, vid, doc, operation, filestuff⟩]] }

/-! ### The background worker (`indexThread`) -/

/-- Environment of the worker loop: the backing store's capability flags and
the external collaborators used while processing an item.  `convert`
models the binary-to-text `converter` (returning the chunks read from the
produced stream, or `none` when conversion fails), `fileExists` models
`os.path.exists`, and `unlinkOk` models whether `os.unlink` succeeds
(an `OSError` from `unlink` is an exception inside the batch). -/
structure WorkerEnv where
  versions : Bool
  inplace : Bool
  convert : String → String → Option (List String)
  fileExists : String → Bool
  unlinkOk : String → Bool

/-- One iteration of the worker's inner `for item in data` loop, acting on
the write connection's state.  `Except.error` marks the point where the
Python code would raise (unpacking a missing `filestuff`, a missing
document object, or a failing `unlink`); the error is caught by the
enclosing `try` in `indexThreadBody`.  An operation value that is neither
DELETE nor UPDATE is only logged and changes nothing. -/
def applyItem (env : WorkerEnv) (w : List Doc) (item : QueueItem) :
    Except String (List Doc) :=
  if item.operation = DELETE then
    .ok (engineDelete w item.uid)
  else if item.operation = UPDATE then
    match item.filestuff with
    | none => .error "TypeError: filestuff is not a pair"
    | some (filename, mimetype) =>
      match env.convert filename mimetype with
      | none => .ok w
      | some chunks =>
        match item.doc with
        | none => .error "AttributeError: doc is None"
        | some d =>
          let d1 : Doc :=
            { d with fields := d.fields ++ chunks.map (fun c => ("fulltext", c)) }
          let w1 := engineReplace w d1
          if env.versions ∧ ¬ env.inplace then
            if env.unlinkOk filename then .ok w1
            else .error "OSError: unlink failed"
          else .ok w1
  else
    .ok w

/-- The worker's `for item in data` loop over one dequeued batch.  On an
exception the loop aborts, but the write-connection mutations already made
by earlier items of the batch persist, so the error value carries the
partial state. -/
def applyBatch (env : WorkerEnv) (w : List Doc) :
    List QueueItem → Except (List Doc) (List Doc)
  | [] => .ok w
  | item :: rest =>
    match applyItem env w item with
    | .ok w1 => applyBatch env w1 rest
    | .error _ => .error w

/-- Observable state of the worker thread: the write connection's view and
how many times `queue.task_done()` has been called. -/
structure WState where
  writeIndex : List Doc
  tasksDone : Nat
deriving DecidableEq, Repr

/-- The body of `indexThread`'s `try` block for one dequeued batch: apply
every item under the write lock and then mark the queue entry complete
(`task_done`).  An exception anywhere in the batch skips `task_done`, is
caught by the bare `except`, logged, and the loop continues. -/
def indexThreadBody (env : WorkerEnv) (st : WState) (batch : List QueueItem) :
    WState :=
  match applyBatch env st.writeIndex batch with
  | .ok w => { writeIndex := w, tasksDone := st.tasksDone + 1 }
  | .error w => { writeIndex := w, tasksDone := st.tasksDone }

/-- The worker loop run over a whole backlog of queue entries: every entry
is attempted in order regardless of earlier failures (the `except` clause
only logs). -/
def runWorker (env : WorkerEnv) (st : WState) :
    List (List QueueItem) → WState
  | [] => st
  | batch :: rest => runWorker env (indexThreadBody env st batch) rest

/-! ### Lookup, version chains and tagging -/

/-- Value of a named field of a document (`secore` stored-content lookup,
used for the `uid` and `vid` fields). -/
def fieldValue (d : Doc) (k : String) : Option String :=
  (d.fields.find? (fun p => p.1 = k)).map (fun p => p.2)

/-- Sort key used for `sortby="-vid"`. -/
def vidKey (d : Doc) : String :=
  (fieldValue d "vid").getD ""

/-- Insert a document into a list kept in descending `vid` order. -/
def insertVidDesc (d : Doc) : List Doc → List Doc
  | [] => [d]
  | e :: es => if vidKey e ≤ vidKey d then d :: e :: es else e :: insertVidDesc d es

/-- The engine's `sortby="-vid"` ordering, modelled at the interface
boundary as an insertion sort descending by the stored `vid` value. -/
def sortVidDesc (l : List Doc) : List Doc :=
  l.foldr insertVidDesc []

/-- Method `_search(q, start_index, end_index)`: the engine returns the matches
ranked in the window `[start_index, end_index)` together with
`matches_estimated`, modelled as the exact total number of matches. -/
def searchSlice (ms : List Doc) (start_index end_index : Nat) :
    List Doc × Nat :=
  ((ms.drop start_index).take (end_index - start_index), ms.length)

/-- The documents of `uid`'s version chain visible in the read snapshot,
optionally filtered to one version (`query_filter` with a `vid` field
query; the sentinel `"tip"` is resolved through the backing store). -/
def chainFilter (bsTip : String → String) (readIndex : List Doc)
    (uid : String) (rev : Option String) : List Doc :=
  let ms := readIndex.filter (fun d => fieldValue d "uid" = some uid)
  match rev with
  | none => ms
  | some r =>
      let r1 := if r = "tip" then bsTip uid else r
      ms.filter (fun d => fieldValue d "vid" = some r1)

/-- Method `IndexManager.get_by_uid_prop(uid, rev)`: query `uid` (plus the
optional `vid` filter), sorted by version descending, searched over the
fixed window `[0, 1000)`. -/
def get_by_uid_prop (bsTip : String → String) (st : IMState)
    (uid : String) (rev : Option String) : List Doc × Nat :=
  searchSlice (sortVidDesc (chainFilter bsTip st.readIndex uid rev)) 0 1000

/-- Method `IndexManager.get(uid)`: point lookup through the read connection;
a missing document raises `KeyError(uid)`. -/
def get (st : IMState) (uid : String) : Except String Doc :=
  match engineGet st.readIndex uid with
  | none => .error uid
  | some d => .ok d

/-- Python's `str.lower()`, implemented over the character list so that it
reduces in the kernel. -/
def pyLower (s : String) : String :=
  String.mk (s.data.map Char.toLower)

/-- Helper for `pySplit`: walk the characters accumulating the current
word (in reverse); whitespace runs close the word and never produce empty
tokens, matching Python's `str.split()` with no argument. -/
def pySplitAux : List Char → List Char → List String
  | [], [] => []
  | [], acc => [String.mk acc.reverse]
  | c :: cs, acc =>
    if c.isWhitespace then
      match acc with
      | [] => pySplitAux cs []
      | _ => String.mk acc.reverse :: pySplitAux cs []
    else
      pySplitAux cs (c :: acc)

/-- Python's `str.split()` (split on whitespace runs, dropping empties). -/
def pySplit (s : String) : List String :=
  pySplitAux s.data []

/-- Python's `tag.startswith("-")`. -/
def startsWithDash (s : String) : Bool :=
  match s.data with
  | '-' :: _ => true
  | _ => false

/-- Python's `tag[1:]`. -/
def dropFirst (s : String) : String :=
  String.mk s.data.tail

/-- Python's `tag[-2:] == ":0"`. -/
def endsWithColonZero (s : String) : Bool :=
  match s.data.reverse with
  | '0' :: ':' :: _ => true
  | _ => false

/-- Python's `tag[:-2]`. -/
def dropLastTwo (s : String) : String :=
  String.mk (s.data.reverse.drop 2).reverse

/-- Method `IndexManager._parse_tags(tags)`: lowercase, split on whitespace, map
each token to `(tag, all, mode)` — a `-` prefix selects REMOVE mode, a
trailing `:0` is stripped, and `all` is always `True` in the source. -/
def _parse_tags (tags : String) : List (String × Bool × Nat) :=
  let t := pySplit (pyLower tags)
  t.map (fun tok =>
    let (tok1, mode) :=
      if startsWithDash tok then (dropFirst tok, REMOVE) else (tok, ADD)
    let tok2 := if endsWithColonZero tok1 then dropLastTwo tok1 else tok1
    (tok2, true, mode))

/-- One tag edit applied to one document of the chain.  The empty tag in
REMOVE mode deletes the whole `tags` entry from the data blob; otherwise
the tag set (a Python `set`, modelled as a duplicate-free list) gets the
tag removed when present in REMOVE mode, and added in every other case. -/
def applyTagEdit (t : String) (mode : Nat) (d : Doc) : Doc :=
  if t = "" ∧ mode = REMOVE then
    { d with dataTags := none }
  else
    let existing := d.dataTags.getD []
    let existing1 :=
      if t ∈ existing ∧ mode = REMOVE then existing.erase t
      else if t ∈ existing then existing
      else existing ++ [t]
    { d with dataTags := some existing1 }

/-- The edited version chain built by `tag`'s nested loops: each parsed
tag edit is applied in turn to every document fetched from the read
snapshot (the source mutates the fetched `Content` objects in place). -/
def tagEditedDocs (results : List Doc) (parsed : List (String × Bool × Nat)) :
    List Doc :=
  parsed.foldl (fun docs te => docs.map (applyTagEdit te.1 te.2.2)) results

/-- Method `IndexManager.tag(uid, tags, rev)`: resolve the version chain (raising
`KeyError` when it is empty, before any mutation), apply every parsed tag
edit to every fetched document, then replace each edited document in the
write connection.  Note: the source does not call `flush` here, so the
read snapshot is left untouched. -/
def tag (bsTip : String → String) (st : IMState) (uid : String)
    (tags : String) (rev : Option String) : Except String IMState :=
  let rc := get_by_uid_prop bsTip st uid rev
  if rc.2 = 0 then
    .error uid
  else
    let edited := tagEditedDocs rc.1 (_parse_tags tags)
    .ok { st with writeIndex := edited.foldl engineReplace st.writeIndex }

/-! ### The query translator (`search`, structured branch) -/

/-- A scalar value occurring in a structured query dict. -/
inductive Prim where
  | s (v : String)
  | n (v : Int)
deriving DecidableEq, Repr

/-- A value of a structured query dict: a scalar, a list of scalars, or a
nested mapping carrying optional `start`/`end` bounds (a range scan). -/
inductive QVal where
  | prim (p : Prim)
  | list (xs : List Prim)
  | dict (start : Option Prim) (stop : Option Prim)
deriving DecidableEq, Repr

/-- Constant `xapian.Query.OP_AND`. -/
def OP_AND : Nat := 0

/-- Constant `xapian.Query.OP_OR`. -/
def OP_OR : Nat := 1

/-- The engine's composite query tree, modelled at the interface boundary
(`query_field`, `query_range`, `query_composite`, `query_all`); the result
of running the textual grammar (`parse_query`) over a nested `query`
string is kept abstract as a `parsedText` leaf. -/
inductive XQuery where
  | all
  | fieldQ (k : String) (v : Prim)
  | range (k : String) (lo hi : Int)
  | composite (op : Nat) (qs : List XQuery)
  | parsedText (s : String)
deriving Repr

/-- Constant `sys.maxint` on a 64-bit build of Python 2. -/
def sysMaxint : Int := 2 ^ 63 - 1

/-- Modelled from the spec: `parse_timestamp_or_float` lives in
`olpc.datastore.utils`, which is not part of the sources; the spec only
says range bounds are "parsed as timestamp-or-float".  Numbers pass
through numerically; a string parses to its numeric value when it is one
(the timestamp formats of the real helper are outside this model). -/
def parse_timestamp_or_float : Prim → Int
  | .n v => v
  | .s v => (v.toInt?).getD 0

/-- The clause `search` builds for one `(key, value)` pair of a structured
query dict: a nested mapping becomes a `query_range` over
`parse_timestamp_or_float` of `start` (default `0`) and `end` (default
`sys.maxint`); a list becomes an OR-composite of one `query_field` per
element; any other value becomes a single `query_field`. -/
def structuredClause (k : String) (v : QVal) : XQuery :=
  match v with
  | .dict s e =>
      .range k (parse_timestamp_or_float (s.getD (.n 0)))
              (parse_timestamp_or_float (e.getD (.n sysMaxint)))
  | .list xs => .composite OP_OR (xs.map (fun item => .fieldQ k item))
  | .prim p => .fieldQ k p

/-- The dict branch of `IndexManager.search(query, ...)`.  `queryKey` is
the popped `query` entry (skipped when absent or falsy); the remaining
pairs are visited in order, each contributing one clause, and everything
is joined with `query_composite(OP_AND, queries)`.  When both the dict and
the clause list are empty the result is `query_all()`. -/
def searchStructured (queryKey : Option String)
    (pairs : List (String × QVal)) : XQuery :=
  let queries : List XQuery :=
    match queryKey with
    | some s => if s = "" then [] else [.parsedText s]
    | none => []
  if pairs.isEmpty && queries.isEmpty then
    .all
  else
    .composite OP_AND
      (pairs.foldl (fun acc kv => acc ++ [structuredClause kv.1 kv.2]) queries)

/-! ### `_query_parse` and its failed retry -/

/-- Outcome of a Python call: a normal return or an uncaught exception,
tagged with the exception class and the offending name/message. -/
inductive PyOutcome (α : Type) where
  | ret (a : α)
  | exn (kind : String) (what : String)
deriving DecidableEq, Repr

/-- Method `IndexManager._query_parse(word, flags)`.  The engine's
`qp.parse_query` is passed in as a function returning `some` parse result
or `none` for a `QueryParserError`.  The source's `except` branch executes
`return qp.parse_query(string, 0)`, but no name `string` is bound in that
scope or module, so evaluating the argument raises `NameError` before any
retry can happen. -/
def _query_parse (parseQuery : String → Nat → Option XQuery)
    (word : String) (flags : Nat) : PyOutcome XQuery :=
  match parseQuery word flags with
  | some q => .ret q
  | none => .exn "NameError" "string"

/-- What the spec (and the source's own comment) intend `_query_parse` to
do on a parse error: retry the same word once with all flags cleared and
return that second parse's outcome. -/
def _query_parse_intended (parseQuery : String → Nat → Option XQuery)
    (word : String) (flags : Nat) : PyOutcome XQuery :=
  match parseQuery word flags with
  | some q => .ret q
  | none =>
      match parseQuery word 0 with
      | some q => .ret q
      | none => .exn "QueryParserError" word

/-! ### `index` -/

/-- Modelled from the spec: `create_uid` lives in `olpc.datastore.utils`,
which is not part of the sources; the spec treats unique-id generation as
an external collaborator producing fresh identities.  We model it as an
injective function of a call counter (the string content is irrelevant,
only freshness matters). -/
def create_uid (n : Nat) : String :=
  String.mk (List.replicate (n + 1) 'u')

/-- Set a key in a Python dict modelled as an association list (later
assignment replaces an existing entry, the pair order follows insertion
for fresh keys). -/
def setKV (pairs : List (String × String)) (k v : String) :
    List (String × String) :=
  pairs.filter (fun p => p.1 ≠ k) ++ [(k, v)]

/-- Lookup in the property bag (`props.get(k)` / `props.pop(k, None)`). -/
def getKV (pairs : List (String × String)) (k : String) : Option String :=
  (pairs.find? (fun p => p.1 = k)).map (fun p => p.2)

/-- Environment of `index`: whether the backing store is versioned and the
registered field set (`self.fields`).  The property mapper
(`_mapProperties`, driven by `olpc.datastore.model`, not part of the
sources) is modelled from the spec as the identity on string key/value
pairs: it normalises values through the data model without renaming keys. -/
structure IndexEnv where
  versioned : Bool
  fields : List String

/-- Result of one `index()` call: the returned engine identity (`doc.id`),
the document handed to `enque`, the advanced uid counter, and the manager
state after the `enque`. -/
structure IndexOutcome where
  docId : String
  theDoc : Doc
  ctr : Nat
  state : IMState
deriving Repr

/-- Method `IndexManager.index(props, filename)`.  Pops `uid` (creating a fresh
one and switching to CREATE when absent), assigns the engine identity —
a fresh uid on a versioning store, the logical `uid` otherwise — defaults
`vid` to `"1"`, stores `uid`/`vid` back into the props, builds the field
list from the registered fields, derives `filestuff` from the filename and
the `mime_type` property, hands everything to `enque`, and returns
`doc.id`.  The uid counter `ctr` threads the fresh-identity generator. -/
def index (env : IndexEnv) (ctr : Nat) (st : IMState)
    (props : List (String × String)) (filename : Option String) :
    IndexOutcome :=
  let uid0 := getKV props "uid"
  let props1 := props.filter (fun p => p.1 ≠ "uid")
  let (uid, operation, ctr1) :=
    match uid0 with
    | some u => (u, UPDATE, ctr)
    | none => (create_uid ctr, CREATE, ctr + 1)
  let (docId, vid0, ctr2) :=
    if env.versioned then
      (create_uid ctr1, getKV props1 "vid", ctr1 + 1)
    else
      (uid, none, ctr1)
  let vid := match vid0 with
    | some v => if v = "" then "1" else v
    | none => "1"
  let props2 := setKV (setKV props1 "uid" uid) "vid" vid
  let mimetype := match getKV props2 "mime_type" with
    | some m => if m = "" then "text/plain" else m
    | none => "text/plain"
  let filestuff := filename.map (fun f => (f, mimetype))
  let doc : Doc :=
    { id := docId
      fields := props2.filter (fun p => p.1 ∈ env.fields)
      dataTags := none }
  let st1 := enque st uid (some vid) (some doc) operation filestuff
  { docId := docId, theDoc := doc, ctr := ctr2, state := st1 }

/-! ### Helper lemmas -/

theorem enque_create_eq (st : IMState) (uid : String) (vid : Option String)
    (d : Doc) (fs : Option (String × String)) :
    enque st uid vid (some d) CREATE fs
      = { writeIndex := engineAdd st.writeIndex d
          readIndex := engineAdd st.writeIndex d
          queue := st.queue ++ (match fs with
            | none => []
            | some f => [[⟨uid, vid, some d, UPDATE, some f⟩]]) } := by
  cases fs <;> simp [enque, flush, CREATE, UPDATE]

theorem enque_update_eq (st : IMState) (uid : String) (vid : Option String)
    (d : Doc) (fs : Option (String × String)) :
    enque st uid vid (some d) UPDATE fs
      = { writeIndex := engineReplace st.writeIndex d
          readIndex := engineReplace st.writeIndex d
          queue := st.queue ++ (match fs with
            | none => []
            | some f => [[⟨uid, vid, some d, UPDATE, some f⟩]]) } := by
  cases fs <;> simp [enque, flush, CREATE, UPDATE]

theorem enque_delete_eq (st : IMState) (uid : String) (vid : Option String)
    (doc : Option Doc) (fs : Option (String × String)) :
    enque st uid vid doc DELETE fs
      = { writeIndex := engineDelete st.writeIndex uid
          readIndex := engineDelete st.writeIndex uid
          queue := st.queue } := by
  simp [enque, flush, CREATE, UPDATE, DELETE]

/-- Descending-`vid` order between documents. -/
def vidGE (a b : Doc) : Prop := vidKey b ≤ vidKey a

theorem insertVidDesc_perm (d : Doc) (l : List Doc) :
    (insertVidDesc d l).Perm (d :: l) := by
  induction l with
  | nil => exact List.Perm.refl _
  | cons e es ih =>
    simp only [insertVidDesc]
    split
    · exact List.Perm.refl _
    · exact (List.Perm.cons e ih).trans (List.Perm.swap d e es)

theorem sortVidDesc_perm (l : List Doc) : (sortVidDesc l).Perm l := by
  induction l with
  | nil => exact List.Perm.refl _
  | cons d ds ih =>
    simp only [sortVidDesc, List.foldr]
    exact (insertVidDesc_perm d _).trans (List.Perm.cons d ih)

theorem sortVidDesc_length (l : List Doc) : (sortVidDesc l).length = l.length :=
  (sortVidDesc_perm l).length_eq

theorem mem_sortVidDesc {d : Doc} {l : List Doc} :
    d ∈ sortVidDesc l ↔ d ∈ l :=
  (sortVidDesc_perm l).mem_iff

theorem insertVidDesc_pairwise (d : Doc) (l : List Doc)
    (h : l.Pairwise vidGE) : (insertVidDesc d l).Pairwise vidGE := by
  induction l with
  | nil => simp [insertVidDesc, List.Pairwise]
  | cons e es ih =>
    rcases List.pairwise_cons.mp h with ⟨he, hes⟩
    simp only [insertVidDesc]
    split
    · rename_i hle
      refine List.pairwise_cons.mpr ⟨?_, h⟩
      intro x hx
      rcases List.mem_cons.mp hx with rfl | hx
      · exact hle
      · exact le_trans (he x hx) hle
    · rename_i hnle
      refine List.pairwise_cons.mpr ⟨?_, ih hes⟩
      intro x hx
      have hx1 := (insertVidDesc_perm d es).mem_iff.mp hx
      rcases List.mem_cons.mp hx1 with rfl | hx1
      · exact le_of_not_le hnle
      · exact he x hx1

theorem sortVidDesc_pairwise (l : List Doc) :
    (sortVidDesc l).Pairwise vidGE := by
  induction l with
  | nil => simp [sortVidDesc, List.Pairwise]
  | cons d ds ih =>
    simp only [sortVidDesc, List.foldr] at ih ⊢
    exact insertVidDesc_pairwise d _ ih

theorem foldl_append_singleton {α : Type} (f : α → XQuery) (l : List α)
    (init : List XQuery) :
    l.foldl (fun acc kv => acc ++ [f kv]) init = init ++ l.map f := by
  induction l generalizing init with
  | nil => simp
  | cons a l ih => simp [ih]

theorem chainFilter_none (bsTip : String → String) (readIndex : List Doc)
    (uid : String) :
    chainFilter bsTip readIndex uid none
      = readIndex.filter (fun d => fieldValue d "uid" = some uid) := rfl

theorem applyTagEdit_id (t : String) (mode : Nat) (d : Doc) :
    (applyTagEdit t mode d).id = d.id := by
  simp only [applyTagEdit]
  split
  · rfl
  · rfl

theorem applyTagEdit_fields (t : String) (mode : Nat) (d : Doc) :
    (applyTagEdit t mode d).fields = d.fields := by
  simp only [applyTagEdit]
  split
  · rfl
  · rfl

theorem applyTagEdit_clear (d : Doc) :
    applyTagEdit "" REMOVE d = { d with dataTags := none } := by
  simp [applyTagEdit]

theorem applyTagEdit_absent (t : String) (mode : Nat) (d : Doc)
    (ht : t ≠ "") (habs : t ∉ d.dataTags.getD []) :
    applyTagEdit t mode d
      = { d with dataTags := some (d.dataTags.getD [] ++ [t]) } := by
  simp [applyTagEdit, ht, habs]

theorem applyTagEdit_remove_present (t : String) (d : Doc)
    (ht : t ≠ "") (hp : t ∈ d.dataTags.getD []) :
    applyTagEdit t REMOVE d
      = { d with dataTags := some ((d.dataTags.getD []).erase t) } := by
  simp [applyTagEdit, ht, hp]

theorem tagEditedDocs_single (results : List Doc) (t : String) (b : Bool)
    (m : Nat) :
    tagEditedDocs results [(t, b, m)] = results.map (applyTagEdit t m) := by
  simp [tagEditedDocs]

/-- Members of a `foldl engineReplace`: either one of the replacement
documents, or a document of the initial index whose identity none of the
replacements carries. -/
theorem mem_foldl_engineReplace {x : Doc} (es : List Doc) (w : List Doc)
    (hx : x ∈ es.foldl engineReplace w) :
    x ∈ es ∨ (x ∈ w ∧ ∀ e ∈ es, e.id ≠ x.id) := by
  induction es generalizing w with
  | nil =>
    simp only [List.foldl] at hx
    exact Or.inr ⟨hx, by simp⟩
  | cons e es ih =>
    simp only [List.foldl] at hx
    rcases ih (engineReplace w e) hx with h | ⟨hw, hids⟩
    · exact Or.inl (List.mem_cons_of_mem e h)
    · rcases List.mem_append.mp hw with hf | he
      · have hf1 := List.mem_filter.mp hf
        have hne : ¬(x.id = e.id) := by simpa using hf1.2
        refine Or.inr ⟨hf1.1, ?_⟩
        intro e' he'
        rcases List.mem_cons.mp he' with rfl | he'
        · exact fun h => hne h.symm
        · exact hids e' he'
      · have : x = e := by simpa using he
        exact Or.inl (this ▸ List.mem_cons_self x es)

/-- When a filter returns the single document `d`, every member of the
list satisfying the predicate is `d` itself. -/
theorem filter_eq_single_forall {p : Doc → Bool} {w : List Doc} {d : Doc}
    (h : w.filter p = [d]) :
    ∀ x ∈ w, p x = true → x = d := by
  intro x hx hp
  have : x ∈ w.filter p := List.mem_filter.mpr ⟨hx, hp⟩
  rw [h] at this
  simpa using this

/-! ### Claim theorems -/

/-- C1.  `enque` with CREATE adds the document on the write connection,
with UPDATE replaces it; in both cases the state is flushed (the read
snapshot equals the new write state) before `enque` returns, and an item —
reclassified to UPDATE — is queued exactly when `filestuff` is non-empty.
With DELETE the document is deleted and flushed and nothing is queued. -/
theorem claim1_enque_policy (st : IMState) (uid : String) (vid : Option String)
    (d : Doc) (doc : Option Doc) (fs : Option (String × String)) :
    ((enque st uid vid (some d) CREATE fs).writeIndex = engineAdd st.writeIndex d
      ∧ (enque st uid vid (some d) CREATE fs).readIndex
          = (enque st uid vid (some d) CREATE fs).writeIndex
      ∧ (enque st uid vid (some d) CREATE fs).queue
          = st.queue ++ (match fs with
              | none => []
              | some f => [[⟨uid, vid, some d, UPDATE, some f⟩]]))
  ∧ ((enque st uid vid (some d) UPDATE fs).writeIndex = engineReplace st.writeIndex d
      ∧ (enque st uid vid (some d) UPDATE fs).readIndex
          = (enque st uid vid (some d) UPDATE fs).writeIndex
      ∧ (enque st uid vid (some d) UPDATE fs).queue
          = st.queue ++ (match fs with
              | none => []
              | some f => [[⟨uid, vid, some d, UPDATE, some f⟩]]))
  ∧ ((enque st uid vid doc DELETE fs).writeIndex = engineDelete st.writeIndex uid
      ∧ (enque st uid vid doc DELETE fs).readIndex
          = (enque st uid vid doc DELETE fs).writeIndex
      ∧ (enque st uid vid doc DELETE fs).queue = st.queue) := by
  refine ⟨?_, ?_, ?_⟩ <;>
    simp [enque_create_eq, enque_update_eq, enque_delete_eq]

/-- C2 (code bug).  When the first `qp.parse_query(word, flags)` raises a
parse error, the `except` branch of `_query_parse` does not retry the word
with flags cleared: it evaluates the unbound name `string` and so raises
`NameError` instead of returning a second parse's result. -/
theorem claim2_query_parse_retry_is_broken
    (parseQuery : String → Nat → Option XQuery) (word : String) (flags : Nat)
    (h : parseQuery word flags = none) :
    _query_parse parseQuery word flags = .exn "NameError" "string"
  ∧ ∀ q, parseQuery word 0 = some q →
      _query_parse parseQuery word flags
        ≠ _query_parse_intended parseQuery word flags := by
  constructor
  · simp [_query_parse, h]
  · intro q hq
    simp [_query_parse, _query_parse_intended, h, hq]

/-- Witness for C2: a parser that rejects every input makes
`_query_parse` surface `NameError` on the word `AND`. -/
theorem claim2_query_parse_retry_is_broken_witness :
    _query_parse (fun _ _ => none) "AND" 4 = .exn "NameError" "string" :=
  (claim2_query_parse_retry_is_broken (fun _ _ => none) "AND" 4 rfl).1

/-- C7.  A `get` on an engine identity absent from the read snapshot
raises `KeyError`, and a `tag` on a uid whose version chain resolves to
zero results raises `KeyError`; since `tag` is a pure function of the
state that returns an error before building any replacement, no engine
state is produced (or mutated) on this path. -/
theorem claim7_not_found (bsTip : String → String) (st : IMState)
    (uid uid2 tags : String) (rev : Option String)
    (hget : engineGet st.readIndex uid = none)
    (htag : (get_by_uid_prop bsTip st uid2 rev).2 = 0) :
    get st uid = .error uid ∧ tag bsTip st uid2 tags rev = .error uid2 := by
  constructor
  · simp [get, hget]
  · simp [tag, htag]

/-- Witness for C7: on an empty read snapshot both lookups fail. -/
theorem claim7_not_found_witness :
    get ⟨[], [], []⟩ "u" = .error "u"
  ∧ tag (fun _ => "1") ⟨[], [], []⟩ "u" "x" none = .error "u" :=
  claim7_not_found (fun _ => "1") ⟨[], [], []⟩ "u" "u" "x" none rfl rfl

/-- C8.  The worker: an operation that is neither DELETE nor UPDATE
produces no engine mutation; a batch that raises is caught (the loop goes
on to process the remaining queue entries) and does not call `task_done`;
`task_done` is called exactly when the batch is applied without raising. -/
theorem claim8_worker_error_isolation (env : WorkerEnv) :
    (∀ (w : List Doc) (item : QueueItem),
        item.operation ≠ DELETE → item.operation ≠ UPDATE →
        applyItem env w item = .ok w)
  ∧ (∀ (st : WState) (batch : List QueueItem) (rest : List (List QueueItem))
        (w : List Doc),
        applyBatch env st.writeIndex batch = .error w →
        runWorker env st (batch :: rest) = runWorker env ⟨w, st.tasksDone⟩ rest)
  ∧ (∀ (st : WState) (batch : List QueueItem),
        (indexThreadBody env st batch).tasksDone = st.tasksDone + 1
          ↔ ∃ w, applyBatch env st.writeIndex batch = .ok w)
  ∧ (∀ (st : WState) (batch : List QueueItem) (w : List Doc),
        applyBatch env st.writeIndex batch = .error w →
        (indexThreadBody env st batch).tasksDone = st.tasksDone) := by
  refine ⟨?_, ?_, ?_, ?_⟩
  · intro w item h1 h2
    simp [applyItem, h1, h2]
  · intro st batch rest w h
    simp [runWorker, indexThreadBody, h]
  · intro st batch
    cases h : applyBatch env st.writeIndex batch <;>
      simp [indexThreadBody, h]
  · intro st batch w h
    simp [indexThreadBody, h]

/-- Witness for C8: with a converter that always fails, an operation value
`7` leaves the index untouched, while an UPDATE item carrying no
`filestuff` raises, is caught, skips `task_done`, and the worker continues
with the rest of the queue. -/
theorem claim8_worker_error_isolation_witness :
    applyItem ⟨false, false, fun _ _ => none, fun _ => false, fun _ => true⟩
        [] ⟨"u", none, none, 7, none⟩ = .ok []
  ∧ runWorker ⟨false, false, fun _ _ => none, fun _ => false, fun _ => true⟩
        ⟨[], 0⟩ [[⟨"u", none, none, 2, none⟩], []]
      = runWorker ⟨false, false, fun _ _ => none, fun _ => false, fun _ => true⟩
        ⟨[], 0⟩ [[]] := by
  refine ⟨?_, ?_⟩
  · exact (claim8_worker_error_isolation _).1 [] ⟨"u", none, none, 7, none⟩
      (by decide) (by decide)
  · exact (claim8_worker_error_isolation _).2.1 ⟨[], 0⟩
      [⟨"u", none, none, 2, none⟩] [[]] [] rfl

/-- C10.  `get_by_uid_prop` always searches the fixed window `[0, 1000)`,
so the returned results are exactly the first 1000 documents of the
version chain sorted by version descending — at most 1000 documents, any
version ranked beyond the 1000th being silently omitted — while the
returned count still reports the full chain. -/
theorem claim10_get_by_uid_prop_window (bsTip : String → String)
    (st : IMState) (uid : String) (rev : Option String) :
    (get_by_uid_prop bsTip st uid rev).1
        = (sortVidDesc (chainFilter bsTip st.readIndex uid rev)).take 1000
  ∧ (get_by_uid_prop bsTip st uid rev).1.length ≤ 1000
  ∧ (get_by_uid_prop bsTip st uid rev).2
        = (chainFilter bsTip st.readIndex uid rev).length
  ∧ (get_by_uid_prop bsTip st uid rev).1.Pairwise vidGE := by
  refine ⟨?_, ?_, ?_, ?_⟩
  · simp [get_by_uid_prop, searchSlice]
  · simp only [get_by_uid_prop, searchSlice, List.drop_zero]
    simp only [List.length_take]
    exact min_le_left 1000
      (sortVidDesc (chainFilter bsTip st.readIndex uid rev)).length
  · simp [get_by_uid_prop, searchSlice, sortVidDesc_length]
  · simp only [get_by_uid_prop, searchSlice, List.drop_zero]
    exact (sortVidDesc_pairwise _).sublist (List.take_sublist _ _)

/-- C6.  The structured branch of `search`: a mapping value becomes a
range clause over `parse_timestamp_or_float` of its `start` (default 0)
and `end` (default `sys.maxint`), a list value becomes an OR-composite of
field matches, any other value a single field match; a nested `query`
string is included as a further (parsed) clause, and everything is joined
with AND.  In particular the category/date example translates to
(category=a OR category=b) AND (date in range [0,100]). -/
theorem claim6_structured_query (queryKey : Option String)
    (pairs : List (String × QVal)) (hne : pairs ≠ []) :
    searchStructured queryKey pairs
        = .composite OP_AND
            ((match queryKey with
              | some s => if s = "" then [] else [.parsedText s]
              | none => []) ++ pairs.map (fun kv => structuredClause kv.1 kv.2))
  ∧ (∀ k s e, structuredClause k (.dict s e)
        = .range k (parse_timestamp_or_float (s.getD (.n 0)))
                   (parse_timestamp_or_float (e.getD (.n sysMaxint))))
  ∧ (∀ k xs, structuredClause k (.list xs)
        = .composite OP_OR (xs.map (fun item => .fieldQ k item)))
  ∧ (∀ k p, structuredClause k (.prim p) = .fieldQ k p)
  ∧ searchStructured none
        [("category", .list [.s "a", .s "b"]),
         ("date", .dict (some (.n 0)) (some (.n 100)))]
        = .composite OP_AND
            [.composite OP_OR
              [.fieldQ "category" (.s "a"), .fieldQ "category" (.s "b")],
             .range "date" 0 100] := by
  refine ⟨?_, fun k s e => rfl, fun k xs => rfl, fun k p => rfl, rfl⟩
  have hpe : pairs.isEmpty = false := by
    cases pairs with
    | nil => exact absurd rfl hne
    | cons a l => rfl
  simp only [searchStructured, hpe, Bool.false_and, Bool.false_eq_true,
    if_false]
  rw [foldl_append_singleton (fun kv : String × QVal => structuredClause kv.1 kv.2)]

/-- Witness for C6: the general translation applied to the category/date
example of the claim. -/
theorem claim6_structured_query_witness :
    searchStructured none
        [("category", .list [.s "a", .s "b"]),
         ("date", .dict (some (.n 0)) (some (.n 100)))]
        = .composite OP_AND
            [.composite OP_OR
              [.fieldQ "category" (.s "a"), .fieldQ "category" (.s "b")],
             .range "date" 0 100] :=
  (claim6_structured_query none
    [("category", .list [.s "a", .s "b"]),
     ("date", .dict (some (.n 0)) (some (.n 100)))]
    (by simp)).2.2.2.2

/-- C5.  `tag(uid, "-")` clears all tags regardless of prior state: the
single parsed edit is the empty tag in REMOVE mode, which deletes the
`tags` entry from the data blob of every document of the resolved version
chain before each one is replaced in the write connection.  The state is
assumed quiescent (read snapshot = write state) and the chain nonempty and
within the `[0, 1000)` search window of `get_by_uid_prop`. -/
theorem claim5_clear_all_tags (bsTip : String → String) (st : IMState)
    (uid : String)
    (hc : st.readIndex = st.writeIndex)
    (hlen : (chainFilter bsTip st.readIndex uid none).length ≤ 1000)
    (hne : chainFilter bsTip st.readIndex uid none ≠ []) :
    ∃ s2, tag bsTip st uid "-" none = .ok s2
      ∧ ∀ x ∈ s2.writeIndex, fieldValue x "uid" = some uid →
          x.dataTags = none := by
  set chain := chainFilter bsTip st.readIndex uid none with hchain
  have hslen : (sortVidDesc chain).length = chain.length := sortVidDesc_length chain
  have htake : (sortVidDesc chain).take 1000 = sortVidDesc chain :=
    List.take_of_length_le (by rw [hslen]; exact hlen)
  have hgp : get_by_uid_prop bsTip st uid none
      = (sortVidDesc chain, chain.length) := by
    simp [get_by_uid_prop, searchSlice, htake, hslen, hchain]
  have hlen0 : chain.length ≠ 0 := by
    simpa [List.length_eq_zero] using hne
  have hparse : _parse_tags "-" = [("", true, REMOVE)] := by decide
  have hedit : tagEditedDocs (sortVidDesc chain) (_parse_tags "-")
      = (sortVidDesc chain).map (applyTagEdit "" REMOVE) := by
    rw [hparse, tagEditedDocs_single]
  refine ⟨{ st with writeIndex :=
      ((tagEditedDocs (sortVidDesc chain) (_parse_tags "-")).foldl
        engineReplace st.writeIndex) }, ?_, ?_⟩
  · simp only [tag, hgp]
    rw [if_neg hlen0]
  · intro x hx hP
    simp only [hedit] at hx
    rcases mem_foldl_engineReplace _ _ hx with hm | ⟨hw, hids⟩
    · rcases List.mem_map.mp hm with ⟨c, _, rfl⟩
      rw [applyTagEdit_clear]
    · exfalso
      have hxchain : x ∈ chain := by
        rw [hchain, chainFilter_none]
        exact List.mem_filter.mpr ⟨hc ▸ hw, by simpa using hP⟩
      have hxs : x ∈ sortVidDesc chain := mem_sortVidDesc.mpr hxchain
      have hmem : applyTagEdit "" REMOVE x
          ∈ (sortVidDesc chain).map (applyTagEdit "" REMOVE) :=
        List.mem_map_of_mem _ hxs
      exact hids _ hmem (applyTagEdit_id _ _ _)

/-- Witness for C5: a one-document store with tags `x`, `y` ends with the
`tags` entry removed. -/
theorem claim5_clear_all_tags_witness :
    ∃ s2, tag (fun _ => "1")
        ⟨[⟨"d1", [("uid", "u1")], some ["x", "y"]⟩],
         [⟨"d1", [("uid", "u1")], some ["x", "y"]⟩], []⟩ "u1" "-" none
        = .ok s2
      ∧ ∀ x ∈ s2.writeIndex, fieldValue x "uid" = some "u1" →
          x.dataTags = none :=
  claim5_clear_all_tags (fun _ => "1")
    ⟨[⟨"d1", [("uid", "u1")], some ["x", "y"]⟩],
     [⟨"d1", [("uid", "u1")], some ["x", "y"]⟩], []⟩ "u1"
    rfl (by decide) (by decide)

/-- C9.  Removing an absent tag adds it: the per-tag edit in `tag` only
removes when the tag is present *and* REMOVE mode is requested, and in
every other case falls into the `add` branch; consequently
`tag(uid, "-t")` on a document whose tag set lacks `t` writes the document
back with `t` added. -/
theorem claim9_remove_absent_adds :
    (∀ (d : Doc) (t : String), t ≠ "" → t ∉ d.dataTags.getD [] →
        applyTagEdit t REMOVE d
          = { d with dataTags := some (d.dataTags.getD [] ++ [t]) })
  ∧ (∀ (bsTip : String → String) (st : IMState) (uid : String) (d : Doc),
        st.readIndex.filter (fun x => fieldValue x "uid" = some uid) = [d] →
        "t" ∉ d.dataTags.getD [] →
        tag bsTip st uid "-t" none
          = .ok { st with writeIndex := (engineReplace st.writeIndex
              { d with dataTags := some (d.dataTags.getD [] ++ ["t"]) }) }) := by
  constructor
  · intro d t ht habs
    exact applyTagEdit_absent t REMOVE d ht habs
  · intro bsTip st uid d hchain habs
    have hchain1 : chainFilter bsTip st.readIndex uid none = [d] := by
      rw [chainFilter_none]; exact hchain
    have hgp : get_by_uid_prop bsTip st uid none = ([d], 1) := by
      simp only [get_by_uid_prop]
      rw [hchain1]
      rfl
    have hparse : _parse_tags "-t" = [("t", true, REMOVE)] := by decide
    simp only [tag, hgp]
    rw [if_neg (by decide : ¬ (1 = 0))]
    rw [hparse, tagEditedDocs_single]
    simp only [List.map_cons, List.map_nil, List.foldl_cons, List.foldl_nil]
    rw [applyTagEdit_absent "t" REMOVE d (by decide) habs]

/-- Witness for C9: a document tagged `x` gains `t` from `tag(uid, "-t")`. -/
theorem claim9_remove_absent_adds_witness :
    tag (fun _ => "1")
        ⟨[⟨"d1", [("uid", "u1")], some ["x"]⟩],
         [⟨"d1", [("uid", "u1")], some ["x"]⟩], []⟩ "u1" "-t" none
      = .ok ⟨engineReplace [⟨"d1", [("uid", "u1")], some ["x"]⟩]
              ⟨"d1", [("uid", "u1")], some ["x", "t"]⟩,
            [⟨"d1", [("uid", "u1")], some ["x"]⟩], []⟩ :=
  claim9_remove_absent_adds.2 (fun _ => "1")
    ⟨[⟨"d1", [("uid", "u1")], some ["x"]⟩],
     [⟨"d1", [("uid", "u1")], some ["x"]⟩], []⟩ "u1"
    ⟨"d1", [("uid", "u1")], some ["x"]⟩ (by decide) (by decide)

/-- C4 (counterexample).  `tag` never flushes, so the second call reads
the stale snapshot in which the document still has no tags: on a
one-document store with an empty tag set, `tag(uid, "alpha beta")`
followed immediately by `tag(uid, "-alpha")` leaves the write connection
holding the tag set `{alpha}` — the `-alpha` edit was applied to the
stale (empty) tag set and therefore *added* alpha — not `{beta}` as the
claim states. -/
theorem claim4_counterexample :
    ((tag (fun _ => "1")
        ⟨[⟨"d1", [("uid", "u1"), ("vid", "1")], some []⟩],
         [⟨"d1", [("uid", "u1"), ("vid", "1")], some []⟩], []⟩
        "u1" "alpha beta" none).bind
      (fun s1 => tag (fun _ => "1") s1 "u1" "-alpha" none))
      = .ok ⟨[⟨"d1", [("uid", "u1"), ("vid", "1")], some ["alpha"]⟩],
             [⟨"d1", [("uid", "u1"), ("vid", "1")], some []⟩], []⟩
  ∧ (⟨"d1", [("uid", "u1"), ("vid", "1")], some ["alpha"]⟩ : Doc).dataTags
      ≠ some ["beta"] :=
  ⟨rfl, by decide⟩

/-- C4 (amended).  With a `flush` between the two calls — so that the
second `tag` observes the first one's effect through the refreshed read
snapshot — a document with an empty tag set ends with tag set exactly
`{beta}` after `tag(uid, "alpha beta")` and `tag(uid, "-alpha")`. -/
theorem claim4_amended_tag_sequence (bsTip : String → String) (st : IMState)
    (uid : String) (d : Doc)
    (hc : st.readIndex = st.writeIndex)
    (hchain : st.readIndex.filter (fun x => fieldValue x "uid" = some uid)
        = [d])
    (hempty : d.dataTags.getD [] = []) :
    ∃ s2, ((tag bsTip st uid "alpha beta" none).bind
        (fun s1 => tag bsTip (flush s1) uid "-alpha" none)) = .ok s2
      ∧ s2.writeIndex.filter (fun x => fieldValue x "uid" = some uid)
          = [{ d with dataTags := some ["beta"] }] := by
  have hdmem : d ∈ st.readIndex.filter
      (fun x => fieldValue x "uid" = some uid) := by
    rw [hchain]
    exact List.mem_cons_self _ _
  have hdP : fieldValue d "uid" = some uid :=
    of_decide_eq_true (List.mem_filter.mp hdmem).2
  have honly : ∀ x ∈ st.writeIndex, fieldValue x "uid" = some uid → x = d := by
    intro x hx hPx
    exact filter_eq_single_forall (hc ▸ hchain) x hx (decide_eq_true hPx)
  have key : ∀ (l : List Doc) (dd : Doc), dd.id = d.id →
      (∀ x ∈ l, fieldValue x "uid" = some uid → x.id = d.id) →
      fieldValue dd "uid" = some uid →
      (engineReplace l dd).filter (fun x => fieldValue x "uid" = some uid)
        = [dd] := by
    intro l dd hid hl hPdd
    show (l.filter (fun x => x.id ≠ dd.id) ++ [dd]).filter
        (fun x => fieldValue x "uid" = some uid) = [dd]
    rw [List.filter_append]
    have h1 : (l.filter (fun x => x.id ≠ dd.id)).filter
        (fun x => fieldValue x "uid" = some uid) = [] := by
      rw [List.filter_eq_nil_iff]
      intro x hx hPx
      have hx1 := List.mem_filter.mp hx
      have hxid : x.id = d.id := hl x hx1.1 (of_decide_eq_true hPx)
      exact (of_decide_eq_true hx1.2) (by rw [hxid, hid])
    rw [h1]
    simp [hPdd]
  have hids_w : ∀ x ∈ st.writeIndex,
      fieldValue x "uid" = some uid → x.id = d.id := by
    intro x hx hPx
    rw [honly x hx hPx]
  have hchain1 : chainFilter bsTip st.readIndex uid none = [d] := by
    rw [chainFilter_none]
    exact hchain
  have hgp1 : get_by_uid_prop bsTip st uid none = ([d], 1) := by
    simp only [get_by_uid_prop]
    rw [hchain1]
    rfl
  have hparse1 : _parse_tags "alpha beta"
      = [("alpha", true, ADD), ("beta", true, ADD)] := by decide
  have he1 : applyTagEdit "alpha" ADD d
      = { d with dataTags := some ["alpha"] } := by
    rw [applyTagEdit_absent "alpha" ADD d (by decide)
      (by rw [hempty]; exact List.not_mem_nil _), hempty]
    rfl
  have he2 : applyTagEdit "beta" ADD { d with dataTags := some ["alpha"] }
      = { d with dataTags := some ["alpha", "beta"] } := by
    rw [applyTagEdit_absent "beta" ADD { d with dataTags := some ["alpha"] }
      (by decide)
      (by decide : ("beta" : String) ∉ (["alpha"] : List String))]
    rfl
  have hedit1 : tagEditedDocs [d] (_parse_tags "alpha beta")
      = [{ d with dataTags := some ["alpha", "beta"] }] := by
    rw [hparse1]
    show ([d].map (applyTagEdit "alpha" ADD)).map (applyTagEdit "beta" ADD) = _
    simp only [List.map_cons, List.map_nil]
    rw [he1, he2]
  have htag1 : tag bsTip st uid "alpha beta" none
      = .ok { st with writeIndex := (engineReplace st.writeIndex
          { d with dataTags := some ["alpha", "beta"] }) } := by
    simp only [tag, hgp1]
    rw [if_neg (by decide : ¬ (1 = 0))]
    rw [hedit1]
    rfl
  have hchain2 : (engineReplace st.writeIndex
      { d with dataTags := some ["alpha", "beta"] }).filter
        (fun x => fieldValue x "uid" = some uid)
      = [{ d with dataTags := some ["alpha", "beta"] }] :=
    key st.writeIndex _ rfl hids_w hdP
  have hchain2' : chainFilter bsTip (engineReplace st.writeIndex
      { d with dataTags := some ["alpha", "beta"] }) uid none
      = [{ d with dataTags := some ["alpha", "beta"] }] := by
    rw [chainFilter_none]
    exact hchain2
  have hgp2 : get_by_uid_prop bsTip
      (flush { st with writeIndex := (engineReplace st.writeIndex
        { d with dataTags := some ["alpha", "beta"] }) }) uid none
      = ([{ d with dataTags := some ["alpha", "beta"] }], 1) := by
    show searchSlice (sortVidDesc (chainFilter bsTip
      (engineReplace st.writeIndex
        { d with dataTags := some ["alpha", "beta"] }) uid none)) 0 1000 = _
    rw [hchain2']
    rfl
  have hparse2 : _parse_tags "-alpha" = [("alpha", true, REMOVE)] := by decide
  have he3 : applyTagEdit "alpha" REMOVE
      { d with dataTags := some ["alpha", "beta"] }
      = { d with dataTags := some ["beta"] } := by
    rw [applyTagEdit_remove_present "alpha"
      { d with dataTags := some ["alpha", "beta"] } (by decide)
      (by decide : ("alpha" : String) ∈ (["alpha", "beta"] : List String))]
    rfl
  have htag2 : tag bsTip (flush { st with writeIndex :=
      (engineReplace st.writeIndex
        { d with dataTags := some ["alpha", "beta"] }) }) uid "-alpha" none
      = .ok ⟨engineReplace (engineReplace st.writeIndex
            { d with dataTags := some ["alpha", "beta"] })
            { d with dataTags := some ["beta"] },
          engineReplace st.writeIndex
            { d with dataTags := some ["alpha", "beta"] },
          st.queue⟩ := by
    simp only [tag, hgp2]
    rw [if_neg (by decide : ¬ (1 = 0))]
    rw [hparse2, tagEditedDocs_single]
    simp only [List.map_cons, List.map_nil, List.foldl_cons, List.foldl_nil]
    rw [he3]
    rfl
  have hids_W1 : ∀ x ∈ engineReplace st.writeIndex
      { d with dataTags := some ["alpha", "beta"] },
      fieldValue x "uid" = some uid → x.id = d.id := by
    intro x hx hPx
    have hx' : x ∈ st.writeIndex.filter
        (fun y => y.id ≠ ({ d with dataTags := some ["alpha", "beta"] } : Doc).id)
        ++ [{ d with dataTags := some ["alpha", "beta"] }] := hx
    rcases List.mem_append.mp hx' with hf | hs
    · exact hids_w x (List.mem_filter.mp hf).1 hPx
    · have hxe : x = { d with dataTags := some ["alpha", "beta"] } := by
        simpa using hs
      rw [hxe]
  refine ⟨⟨engineReplace (engineReplace st.writeIndex
        { d with dataTags := some ["alpha", "beta"] })
        { d with dataTags := some ["beta"] },
      engineReplace st.writeIndex
        { d with dataTags := some ["alpha", "beta"] },
      st.queue⟩, ?_, ?_⟩
  · rw [htag1]
    exact htag2
  · exact key _ _ rfl hids_W1 hdP

/-- Witness for the amended C4: the concrete one-document store run
through both tag calls with a flush in between ends at tag set `{beta}`. -/
theorem claim4_amended_tag_sequence_witness :
    ∃ s2, ((tag (fun _ => "1")
        ⟨[⟨"d1", [("uid", "u1"), ("vid", "1")], some []⟩],
         [⟨"d1", [("uid", "u1"), ("vid", "1")], some []⟩], []⟩
        "u1" "alpha beta" none).bind
      (fun s1 => tag (fun _ => "1") (flush s1) "u1" "-alpha" none)) = .ok s2
      ∧ s2.writeIndex.filter (fun x => fieldValue x "uid" = some "u1")
          = [⟨"d1", [("uid", "u1"), ("vid", "1")], some ["beta"]⟩] :=
  claim4_amended_tag_sequence (fun _ => "1")
    ⟨[⟨"d1", [("uid", "u1"), ("vid", "1")], some []⟩],
     [⟨"d1", [("uid", "u1"), ("vid", "1")], some []⟩], []⟩ "u1"
    ⟨"d1", [("uid", "u1"), ("vid", "1")], some []⟩
    rfl (by decide) (by decide)

theorem create_uid_inj {m n : Nat} (h : create_uid m = create_uid n) :
    m = n := by
  have h0 : String.mk (List.replicate (m + 1) 'u')
      = String.mk (List.replicate (n + 1) 'u') := h
  have h1 : List.replicate (m + 1) 'u' = List.replicate (n + 1) 'u' := by
    injection h0
  have h2 := congrArg List.length h1
  simpa using h2

theorem mem_fields_setKV (pairs : List (String × String)) (u v : String)
    (fields : List String) (hf : "uid" ∈ fields) :
    ("uid", u) ∈ (setKV (setKV pairs "uid" u) "vid" v).filter
      (fun p => p.1 ∈ fields) := by
  apply List.mem_filter.mpr
  refine ⟨?_, decide_eq_true hf⟩
  unfold setKV
  apply List.mem_append.mpr
  left
  apply List.mem_filter.mpr
  refine ⟨?_, decide_eq_true (by decide : ("uid" : String) ≠ "vid")⟩
  exact List.mem_append.mpr (Or.inr (by simp))

/-- C3.  `index`: on a versioned backing store the engine identity of the
new document is a freshly created uid, distinct from the logical uid that
the document fields keep carrying; on a non-versioned store the engine
identity is the logical uid itself.  In both cases `index` only enqueues
(the prior queue is preserved as a prefix and nothing gets dequeued) and
returns the identity immediately.  The freshness hypothesis `hu` states
that a caller-supplied uid came from an earlier call of the generator. -/
theorem claim3_engine_identity (env : IndexEnv) (ctr : Nat) (st : IMState)
    (props : List (String × String)) (fn : Option String)
    (hu : ∀ u, getKV props "uid" = some u → ∃ m, m < ctr ∧ u = create_uid m)
    (hf : "uid" ∈ env.fields) :
    (env.versioned = true →
        (index env ctr st props fn).docId
            ≠ (getKV props "uid").getD (create_uid ctr)
      ∧ ("uid", (getKV props "uid").getD (create_uid ctr))
            ∈ (index env ctr st props fn).theDoc.fields)
  ∧ (env.versioned = false →
        (index env ctr st props fn).docId
            = (getKV props "uid").getD (create_uid ctr))
  ∧ (∃ rest, (index env ctr st props fn).state.queue = st.queue ++ rest) := by
  cases huid : getKV props "uid" with
  | none =>
    cases hv : env.versioned with
    | true =>
      refine ⟨fun _ => ⟨?_, ?_⟩, ⟨fun hfalse => Bool.noConfusion hfalse, ?_⟩⟩
      · simp only [index, huid, hv, Option.getD]
        intro he
        have := create_uid_inj he
        omega
      · simp only [index, huid, hv, Option.getD]
        exact mem_fields_setKV _ _ _ _ hf
      · simp only [index, huid, hv]
        exact ⟨_, congrArg IMState.queue (enque_create_eq st _ _ _ _)⟩
    | false =>
      refine ⟨fun htrue => Bool.noConfusion htrue, ⟨fun _ => ?_, ?_⟩⟩
      · simp [index, huid, hv]
      · simp only [index, huid, hv]
        exact ⟨_, congrArg IMState.queue (enque_create_eq st _ _ _ _)⟩
  | some u =>
    obtain ⟨m, hm, rfl⟩ := hu u huid
    cases hv : env.versioned with
    | true =>
      refine ⟨fun _ => ⟨?_, ?_⟩, ⟨fun hfalse => Bool.noConfusion hfalse, ?_⟩⟩
      · simp only [index, huid, hv, Option.getD]
        intro he
        have := create_uid_inj he
        omega
      · simp only [index, huid, hv, Option.getD]
        exact mem_fields_setKV _ _ _ _ hf
      · simp only [index, huid, hv]
        exact ⟨_, congrArg IMState.queue (enque_update_eq st _ _ _ _)⟩
    | false =>
      refine ⟨fun htrue => Bool.noConfusion htrue, ⟨fun _ => ?_, ?_⟩⟩
      · simp [index, huid, hv]
      · simp only [index, huid, hv]
        exact ⟨_, congrArg IMState.queue (enque_update_eq st _ _ _ _)⟩

/-- Witness for C3: a versioned store and a property bag carrying the
uid produced by the generator's call 0, indexed at counter 1, yields a
fresh engine identity distinct from the logical uid. -/
theorem claim3_engine_identity_witness :
    (index ⟨true, ["uid"]⟩ 1 ⟨[], [], []⟩ [("uid", create_uid 0)] none).docId
        ≠ (getKV [("uid", create_uid 0)] "uid").getD (create_uid 1)
  ∧ ("uid", (getKV [("uid", create_uid 0)] "uid").getD (create_uid 1))
        ∈ (index ⟨true, ["uid"]⟩ 1 ⟨[], [], []⟩
            [("uid", create_uid 0)] none).theDoc.fields :=
  (claim3_engine_identity ⟨true, ["uid"]⟩ 1 ⟨[], [], []⟩
    [("uid", create_uid 0)] none
    (fun u hu => ⟨0, by decide, by
      have : some (create_uid 0) = some u := by
        simpa [getKV] using hu
      exact (Option.some.injEq _ _ ▸ this).symm⟩)
    (by decide)).1 rfl

end XapianIndex
